import Mathlib

/-!
# Verification of the diffmap image-diff engine

Shallow embedding of the core of the `diffmap` repository
(`src/lib/diff.ts`, `src/lib/box.ts`, `src/lib/types.ts`,
`src/lib/pixel-yiq.ts`, `src/lib/pixel-rgb.ts`, `src/lib/image-rgb.ts`)
together with theorems settling the specified claims.

JavaScript `number` arithmetic on pixel data is modelled by `ℚ`;
`Uint8Array` stores are modelled by reduction mod 256; JavaScript
division (which can produce `NaN` / `Infinity` on a zero divisor)
is modelled by the dedicated type `JsDivResult`.
-/

namespace Diffmap

/-! ## Color model (`pixel-yiq.ts`, `pixel-rgb.ts`) -/

/-- Pixel colour from a YIQ image (`YiqPixelColor` in `types.ts`). -/
structure YiqPixelColor where
  y : ℚ
  i : ℚ
  q : ℚ
deriving DecidableEq

/-- Pixel colour from an RGBA bitmap (`RgbaPixelColor` in `types.ts`). -/
structure RgbaPixelColor where
  r : ℕ
  g : ℕ
  b : ℕ
  a : ℕ
deriving DecidableEq

/-- `colorDistance` from `pixel-yiq.ts`: signed perceptual colour difference. -/
def colorDistance (fromPixel toPixel : YiqPixelColor) : ℚ :=
  let diffY := fromPixel.y - toPixel.y
  let diffI := fromPixel.i - toPixel.i
  let diffQ := fromPixel.q - toPixel.q
  if diffY = 0 ∧ diffI = 0 ∧ diffQ = 0 then
    0
  else
    let colorDiff :=
      (5053 / 10000 * diffY * diffY + 299 / 1000 * diffI * diffI
        + 1957 / 10000 * diffQ * diffQ) / (13809803921568627 / 100000000000000)
    if fromPixel.y > toPixel.y then -colorDiff else colorDiff

/-- `contrast` from `pixel-yiq.ts`: luminance difference. -/
def contrast (fromPixel toPixel : YiqPixelColor) : ℚ :=
  fromPixel.y - toPixel.y

/-- `absColorDistance` from `diff.ts`. -/
def absColorDistance (fromPixel toPixel : YiqPixelColor) : ℚ :=
  |colorDistance fromPixel toPixel|

/-- `yiq` from `pixel-rgb.ts`: convert one RGB pixel to YIQ (alpha ignored). -/
def yiqPixel (pixel : RgbaPixelColor) : YiqPixelColor :=
  { y := 29889531 / 100000000 * pixel.r + 58662247 / 100000000 * pixel.g
        + 11448223 / 100000000 * pixel.b
    i := 59597799 / 100000000 * pixel.r - 27417610 / 100000000 * pixel.g
        - 32180189 / 100000000 * pixel.b
    q := 21147017 / 100000000 * pixel.r - 52261711 / 100000000 * pixel.g
        + 31114694 / 100000000 * pixel.b }

/-! ## Raster images (`types.ts`) -/

/-- `YiqFloatmap` from `types.ts`: 3-channel raster of rational (float) values.
The raw `Float64Array` is modelled as a total function from array offsets. -/
structure YiqFloatmap where
  width : ℕ
  height : ℕ
  data : ℕ → ℚ

instance : Inhabited YiqFloatmap := ⟨⟨0, 0, fun _ => 0⟩⟩

/-- `Image.offset` for a 3-channel image. -/
def YiqFloatmap.offset (image : YiqFloatmap) (x y : ℕ) : ℕ :=
  (y * image.width + x) * 3

/-- `Image.pixel` for `YiqFloatmap`. -/
def YiqFloatmap.pixel (image : YiqFloatmap) (offset : ℕ) : YiqPixelColor :=
  { y := image.data offset, i := image.data (offset + 1), q := image.data (offset + 2) }

/-- `RgbBitmap` / `RgbaBitmap` from `types.ts` (3 or 4 byte channels). -/
structure RgbBitmap where
  width : ℕ
  height : ℕ
  channels : ℕ
  data : ℕ → ℕ

instance : Inhabited RgbBitmap := ⟨⟨0, 0, 3, fun _ => 0⟩⟩

/-- `Image.pixel` for RGB/RGBA bitmaps; a 3-channel image reports alpha 255. -/
def RgbBitmap.pixel (image : RgbBitmap) (offset : ℕ) : RgbaPixelColor :=
  { r := image.data offset, g := image.data (offset + 1), b := image.data (offset + 2)
    a := if image.channels = 4 then image.data (offset + 3) else 255 }

/-- `yiq` from `image-rgb.ts`: per-pixel RGB→YIQ conversion of a whole bitmap. -/
def rgbToYiq (sourceImage : RgbBitmap) : YiqFloatmap :=
  { width := sourceImage.width
    height := sourceImage.height
    data := fun offset =>
      let index := offset / 3
      let p := yiqPixel (sourceImage.pixel (index * sourceImage.channels))
      if offset % 3 = 0 then p.y else if offset % 3 = 1 then p.i else p.q }

/-- `Valuemap` over a `Uint8Array` (`IntValuemap` in `types.ts`):
single-channel byte raster used as the flag map. -/
structure IntValuemap where
  width : ℕ
  height : ℕ
  pix : ℕ → ℕ

/-- `Valuemap.setPixel`: `Uint8Array` stores truncate to a byte. -/
def IntValuemap.setPixel (m : IntValuemap) (offset value : ℕ) : IntValuemap :=
  { m with pix := fun j => if j = offset then value % 256 else m.pix j }

/-- `Image.iterateAdjacent` from `types.ts`, as the list of visited positions:
diagonal candidates `(x±1, y±1)` kept when `0 < pos < bound` (note the strict
lower bound in the source: row 0 and column 0 are skipped).  Outer loop is
`posY`, inner loop is `posX`. -/
def adjacentPoints (width height : ℕ) (x y : ℤ) : List (ℤ × ℤ) :=
  (([y - 1, y + 1]).filter fun posY => decide (0 < posY ∧ posY < (height : ℤ))).flatMap
    fun posY =>
      (([x - 1, x + 1]).filter fun posX => decide (0 < posX ∧ posX < (width : ℤ))).map
        fun posX => (posX, posY)

/-! ## Per-pixel classifier (`similarityFlag`, `significanceFlag` in `diff.ts`) -/

/-- Similarity flag names (`SimilarityFlagName` in `diff.ts`). -/
inductive SimilarityFlagName where
  | identical
  | similar
  | changed
deriving DecidableEq

/-- Significance flag names (`SignificanceFlagName` in `diff.ts`). -/
inductive SignificanceFlagName where
  | antialias
  | background
  | foreground
deriving DecidableEq

/-- The list of pairwise distances scanned by `similarityFlag`:
for `i < j`, `absColorDistance pixels[i] pixels[j]`, in loop order. -/
def pairDiffs : List YiqPixelColor → List ℚ
  | [] => []
  | p :: rest => (rest.map fun q => absColorDistance p q) ++ pairDiffs rest

/-- The `if (v > max) max = v` running-maximum loop, starting from 0. -/
def loopMax (l : List ℚ) : ℚ :=
  l.foldl (fun m d => if m < d then d else m) 0

/-- `similarityFlag` from `diff.ts`. -/
def similarityFlag (images : List YiqFloatmap) (x y : ℕ)
    (changedMinDistance : ℚ) : SimilarityFlagName :=
  let offset := (images.headD default).offset x y
  let comparePixels := images.map fun image => image.pixel offset
  let maxDistance := loopMax (pairDiffs comparePixels)
  if maxDistance = 0 then .identical
  else if maxDistance < changedMinDistance then .similar
  else .changed

/-- The adjacent-pixel statistics loop inside `significanceFlag`:
running max distance, max contrast, and count of identical neighbours. -/
def adjacentStats (image : YiqFloatmap) (sourcePixel : YiqPixelColor)
    (x y : ℤ) : ℚ × ℚ × ℕ :=
  (adjacentPoints image.width image.height x y).foldl
    (fun acc pt =>
      let adjacentPixel := image.pixel ((pt.2.toNat * image.width + pt.1.toNat) * 3)
      let pixelDistance := absColorDistance sourcePixel adjacentPixel
      if pixelDistance = 0 then
        (acc.1, acc.2.1, acc.2.2 + 1)
      else
        let maxDistance := if acc.1 < pixelDistance then pixelDistance else acc.1
        let pixelContrast := |contrast sourcePixel adjacentPixel|
        let maxContrast := if acc.2.1 < pixelContrast then pixelContrast else acc.2.1
        (maxDistance, maxContrast, acc.2.2))
    (0, 0, 0)

/-- The per-image classification inside `significanceFlag`. -/
def pixelSignificanceOf (antialiasMinDistance antialiasMaxDistance
    backgroundMaxContrast : ℚ) (stats : ℚ × ℚ × ℕ) : SignificanceFlagName :=
  if stats.2.2 < 3 ∧
      antialiasMinDistance ≤ stats.1 ∧ stats.1 ≤ antialiasMaxDistance ∧
      antialiasMinDistance ≤ stats.2.1 ∧ stats.2.1 ≤ antialiasMaxDistance then
    .antialias
  else if stats.2.1 ≤ backgroundMaxContrast then
    .background
  else
    .foreground

/-- The reconciliation loop of `significanceFlag` over the image list,
with its early `break` on `foreground` or disagreement. -/
def significanceLoop (antialiasMinDistance antialiasMaxDistance
    backgroundMaxContrast : ℚ) (offset : ℕ) (x y : ℕ) :
    List YiqFloatmap → Option SignificanceFlagName → Option SignificanceFlagName
  | [], significance => significance
  | image :: rest, significance =>
    let sourcePixel := image.pixel offset
    let pixelSignificance := pixelSignificanceOf antialiasMinDistance
      antialiasMaxDistance backgroundMaxContrast
      (adjacentStats image sourcePixel (x : ℤ) (y : ℤ))
    if pixelSignificance = .foreground ∨
        (significance ≠ none ∧ some pixelSignificance ≠ significance) then
      some .foreground
    else
      significanceLoop antialiasMinDistance antialiasMaxDistance
        backgroundMaxContrast offset x y rest
        (if significance = none then some pixelSignificance else significance)

/-- `significanceFlag` from `diff.ts`. -/
def significanceFlag (images : List YiqFloatmap) (x y : ℕ)
    (antialiasMinDistance antialiasMaxDistance backgroundMaxContrast : ℚ) :
    SignificanceFlagName :=
  let offset := (images.headD default).offset x y
  (significanceLoop antialiasMinDistance antialiasMaxDistance
    backgroundMaxContrast offset x y images none).getD .foreground

/-! ## Flag bit values (`FLAGS` in `diff.ts`)

Bit layout: `0x01` diff, `0x06` group, `0x30` similarity, `0xC0` significance. -/

/-- `FLAGS[similarity].value`. -/
def similarityValue : SimilarityFlagName → ℕ
  | .identical => 0x00
  | .similar => 0x20
  | .changed => 0x30

/-- `FLAGS[significance].value`. -/
def significanceValue : SignificanceFlagName → ℕ
  | .background => 0x00
  | .foreground => 0x40
  | .antialias => 0x80

/-- `FLAGS.diffDifferent.value` (also its mask). -/
def diffDifferentValue : ℕ := 0x01

/-- `FLAGS.groupFill.value`. -/
def groupFillValue : ℕ := 0x02

/-- `FLAGS.groupBorder.value`. -/
def groupBorderValue : ℕ := 0x06

/-- `FLAGS.similar.mask` (similarity bit field). -/
def similarityMask : ℕ := 0x30

/-- `FLAGS.background.mask` (significance bit field). -/
def significanceMask : ℕ := 0xC0

/-! ## Pixel statistics (`flags` in `diff.ts`) -/

/-- One row of the similarity×significance breakdown table. -/
structure SimSigCounts where
  all : ℕ
  foreground : ℕ
  background : ℕ
  antialias : ℕ
deriving DecidableEq

/-- The similarity×significance breakdown table. -/
structure SimilarityCounts where
  changed : SimSigCounts
  identical : SimSigCounts
  similar : SimSigCounts
deriving DecidableEq

/-- Counts by significance flag. -/
structure SignificanceCounts where
  foreground : ℕ
  background : ℕ
  antialias : ℕ
deriving DecidableEq

/-- `pixelCounts` as returned by `flags` (no `group` field yet). -/
structure FlagsPixelCounts where
  all : ℕ
  diff : ℕ
  compared : ℕ
  significance : SignificanceCounts
  similarity : SimilarityCounts
deriving DecidableEq

/-- `pixelCounts.significance[significance]++`. -/
def bumpSignificance (c : SignificanceCounts) : SignificanceFlagName → SignificanceCounts
  | .foreground => { c with foreground := c.foreground + 1 }
  | .background => { c with background := c.background + 1 }
  | .antialias => { c with antialias := c.antialias + 1 }

/-- `pixelCounts.similarity[similarity].all++` and `[similarity][significance]++`. -/
def bumpSimSig (c : SimSigCounts) : SignificanceFlagName → SimSigCounts
  | .foreground => { c with all := c.all + 1, foreground := c.foreground + 1 }
  | .background => { c with all := c.all + 1, background := c.background + 1 }
  | .antialias => { c with all := c.all + 1, antialias := c.antialias + 1 }

/-- Update the breakdown table for one pixel. -/
def bumpSimilarity (c : SimilarityCounts) (sim : SimilarityFlagName)
    (sig : SignificanceFlagName) : SimilarityCounts :=
  match sim with
  | .changed => { c with changed := bumpSimSig c.changed sig }
  | .identical => { c with identical := bumpSimSig c.identical sig }
  | .similar => { c with similar := bumpSimSig c.similar sig }

/-- The per-pixel body of `flags`: classify, store the flag byte, bump counts. -/
def flagsStep (images : List YiqFloatmap)
    (changedMinDistance antialiasMinDistance antialiasMaxDistance
      backgroundMaxContrast : ℚ)
    (diffIncludeAntialias diffIncludeBackground diffIncludeForeground : Bool)
    (width : ℕ) (st : IntValuemap × FlagsPixelCounts) (index : ℕ) :
    IntValuemap × FlagsPixelCounts :=
  let x := index % width
  let y := index / width
  let similarity := similarityFlag images x y changedMinDistance
  let significance := significanceFlag images x y antialiasMinDistance
    antialiasMaxDistance backgroundMaxContrast
  let compared :=
    (diffIncludeForeground && decide (significance = .foreground)) ||
    (diffIncludeBackground && decide (significance = .background)) ||
    (diffIncludeAntialias && decide (significance = .antialias))
  let diff := decide (similarity = .changed) && compared
  let flagsVal := similarityValue similarity + significanceValue significance
    + (if diff then diffDifferentValue else 0)
  let counts := st.2
  (st.1.setPixel index flagsVal,
    { counts with
      significance := bumpSignificance counts.significance significance
      similarity := bumpSimilarity counts.similarity similarity significance
      compared := counts.compared + (if compared then 1 else 0)
      diff := counts.diff + (if diff then 1 else 0) })

/-- `flags` from `diff.ts`: row-major pass over all pixels of `images[0]`,
writing similarity/significance/diff bits into `flagsImage` and accumulating
the pixel counts. -/
def flags (flagsImage : IntValuemap) (images : List YiqFloatmap)
    (changedMinDistance antialiasMinDistance antialiasMaxDistance
      backgroundMaxContrast : ℚ)
    (diffIncludeAntialias diffIncludeBackground diffIncludeForeground : Bool) :
    IntValuemap × FlagsPixelCounts :=
  let image0 := images.headD default
  let counts0 : FlagsPixelCounts :=
    { all := flagsImage.width * flagsImage.height
      diff := 0
      compared := 0
      significance := ⟨0, 0, 0⟩
      similarity := ⟨⟨0, 0, 0, 0⟩, ⟨0, 0, 0, 0⟩, ⟨0, 0, 0, 0⟩⟩ }
  (List.range (image0.width * image0.height)).foldl
    (flagsStep images changedMinDistance antialiasMinDistance
      antialiasMaxDistance backgroundMaxContrast
      diffIncludeAntialias diffIncludeBackground diffIncludeForeground
      image0.width)
    (flagsImage, counts0)

/-! ## Box geometry (`box.ts`) -/

/-- `AbsBox` from `box.ts`: inclusive box coordinates. -/
structure AbsBox where
  left : ℤ
  top : ℤ
  right : ℤ
  bottom : ℤ
deriving DecidableEq

/-- `fitBox` from `box.ts`: grow a box by `grow` on each side and clamp
to the bitmap bounds. -/
def fitBox (mapWidth mapHeight : ℕ) (box : AbsBox) (grow : ℤ) : AbsBox :=
  { left := max 0 (box.left - grow)
    top := max 0 (box.top - grow)
    right := min ((mapWidth : ℤ) - 1) (box.right + grow)
    bottom := min ((mapHeight : ℤ) - 1) (box.bottom + grow) }

/-- `boxContainsPoint` from `box.ts`. -/
def boxContainsPoint (box : AbsBox) (p : ℤ × ℤ) : Bool :=
  decide (box.left ≤ p.1 ∧ p.1 ≤ box.right ∧ box.top ≤ p.2 ∧ p.2 ≤ box.bottom)

/-- The corner points of a box (`boxPoints` from `box.ts`). -/
def boxPoints (box : AbsBox) : (ℤ × ℤ) × (ℤ × ℤ) × (ℤ × ℤ) × (ℤ × ℤ) :=
  ((box.left, box.top), (box.right, box.top),
    (box.left, box.bottom), (box.right, box.bottom))

/-- `checkLineIntersect` inside `boxIntersect`. -/
def checkLineIntersect (p1 p2 q1 q2 : ℤ × ℤ) : Bool :=
  if p1.1 = p2.1 ∧ q1.2 = q2.2 then
    decide (q1.1 ≤ p1.1 ∧ q2.1 ≥ p2.1 ∧ q1.2 ≥ p1.2 ∧ q1.2 ≤ p2.2)
  else if p1.2 = p2.2 ∧ q1.1 = q2.1 then
    decide (p1.1 ≤ q1.1 ∧ p2.1 ≥ q2.1 ∧ p1.2 ≥ q1.2 ∧ p1.2 ≤ q2.2)
  else
    false

/-- `boxIntersect` from `box.ts`: corner-in-box tests plus edge
line-intersection tests for crossing boxes. -/
def boxIntersect (box1 box2 : AbsBox) : Bool :=
  let pts1 := boxPoints box1
  let pts2 := boxPoints box2
  let checkBoxPointsInBox := fun (box : AbsBox)
      (pts : (ℤ × ℤ) × (ℤ × ℤ) × (ℤ × ℤ) × (ℤ × ℤ)) =>
    boxContainsPoint box pts.1 || boxContainsPoint box pts.2.1 ||
    boxContainsPoint box pts.2.2.1 || boxContainsPoint box pts.2.2.2
  let checkBoxLinesIntersect := fun (a b : (ℤ × ℤ) × (ℤ × ℤ) × (ℤ × ℤ) × (ℤ × ℤ)) =>
    checkLineIntersect a.1 a.2.2.1 b.1 b.2.1 ||
    checkLineIntersect a.1 a.2.2.1 b.2.2.1 b.2.2.2 ||
    checkLineIntersect a.2.1 a.2.2.2 b.1 b.2.1 ||
    checkLineIntersect a.2.1 a.2.2.2 b.2.2.1 b.2.2.2 ||
    checkLineIntersect b.1 b.2.2.1 a.1 a.2.1 ||
    checkLineIntersect b.1 b.2.2.1 a.2.2.1 a.2.2.2 ||
    checkLineIntersect b.2.1 b.2.2.2 a.1 a.2.1 ||
    checkLineIntersect b.2.1 b.2.2.2 a.2.2.1 a.2.2.2
  checkBoxPointsInBox box2 pts1 || checkBoxPointsInBox box1 pts2 ||
    checkBoxLinesIntersect pts1 pts2

/-! ## Region grouper (`groups` in `diff.ts`) -/

/-- The first-match merge attempt of the scan phase: find the first open
group whose bounds expanded by `gap` contain the point, and extend it
(never shrink); `none` when no group matches. -/
def mergeStepScan (gap x y : ℤ) : List AbsBox → Option (List AbsBox)
  | [] => none
  | group :: rest =>
    if x ≥ group.left - gap ∧ x ≤ group.right + gap ∧
        y ≥ group.top - gap ∧ y ≤ group.bottom + gap then
      some ({ left := min group.left x, top := min group.top y,
              right := max group.right x, bottom := max group.bottom y } :: rest)
    else
      (mergeStepScan gap x y rest).map (group :: ·)

/-- One scan-phase step for a diff pixel at `(x, y)`: merge into the first
matching group or open a new one-pixel group at the end of the list. -/
def scanStep (gap : ℤ) (groups : List AbsBox) (x y : ℤ) : List AbsBox :=
  match mergeStepScan gap x y groups with
  | some groups' => groups'
  | none => groups ++ [{ left := x, top := y, right := x, bottom := y }]

/-- The scan phase of `groups`: row-major pass over the flag map collecting
open regions from pixels whose `diffDifferent` bit is set. -/
def scanGroups (flagsImage : IntValuemap) (gap : ℤ) : List AbsBox :=
  ((List.range (flagsImage.width * flagsImage.height)).filter
      fun offset => flagsImage.pix offset &&& diffDifferentValue = diffDifferentValue).foldl
    (fun groups offset =>
      scanStep gap groups ((offset % flagsImage.width : ℕ) : ℤ)
        ((offset / flagsImage.width : ℕ) : ℤ))
    []

/-- The first-match union of the merge phase: find the first merged group
geometrically intersecting `group` and extend it; `none` when none does. -/
def mergeStepOverlap (group : AbsBox) : List AbsBox → Option (List AbsBox)
  | [] => none
  | mergedGroup :: rest =>
    if boxIntersect group mergedGroup then
      some ({ left := min mergedGroup.left group.left,
              top := min mergedGroup.top group.top,
              right := max mergedGroup.right group.right,
              bottom := max mergedGroup.bottom group.bottom } :: rest)
    else
      (mergeStepOverlap group rest).map (mergedGroup :: ·)

/-- The single left-to-right merge pass of `groups` (a `reduce`). -/
def mergeGroups (groups : List AbsBox) : List AbsBox :=
  groups.foldl
    (fun mergedGroups group =>
      match mergeStepOverlap group mergedGroups with
      | some mergedGroups' => mergedGroups'
      | none => mergedGroups ++ [group])
    []

/-- One painted cell: `pixel |= flag`, writing only when the typed-array
offset `y·width + x` is inside the backing array, as a `Uint8Array` does. -/
def paintPixel (m : IntValuemap) (borderSize : ℤ) (group : AbsBox)
    (x y : ℤ) : IntValuemap :=
  let flag :=
    if y < group.top + borderSize ∨ y > group.bottom - borderSize ∨
        x < group.left + borderSize ∨ x > group.right - borderSize then
      groupBorderValue
    else
      groupFillValue
  let offset := y * (m.width : ℤ) + x
  if 0 ≤ offset ∧ offset < (m.width : ℤ) * (m.height : ℤ) then
    m.setPixel offset.toNat (m.pix offset.toNat ||| flag)
  else
    m

/-- The inclusive integer range `[lo, hi]` traversed by the paint loops. -/
def intRange (lo hi : ℤ) : List ℤ :=
  (List.range (hi + 1 - lo).toNat).map fun k => lo + (k : ℤ)

/-- Paint one group onto the flag map (row loop outer, column loop inner). -/
def paintGroup (m : IntValuemap) (borderSize : ℤ) (group : AbsBox) : IntValuemap :=
  (intRange group.top group.bottom).foldl
    (fun m1 y =>
      (intRange group.left group.right).foldl
        (fun m2 x => paintPixel m2 borderSize group x y) m1)
    m

/-- Result of `groups`: the mutated flag map, the final region list in
discovery/merge order, and the accumulated group pixel count. -/
structure GroupsResult where
  flagsImage : IntValuemap
  diffGroups : List AbsBox
  groupCount : ℤ

/-- `groups` from `diff.ts`: scan, pad (`fitBox`, skipped when the padding
is 0, i.e. falsy), single merge pass, then paint groups and sum their areas. -/
def groups (flagsImage : IntValuemap)
    (groupMergeMaxGapSize groupBorderSize groupPaddingSize : ℤ) : GroupsResult :=
  let scanned := scanGroups flagsImage groupMergeMaxGapSize
  let padded :=
    if groupPaddingSize = 0 then scanned
    else scanned.map fun group =>
      fitBox flagsImage.width flagsImage.height group groupPaddingSize
  let merged := mergeGroups padded
  let painted := merged.foldl
    (fun st group =>
      (paintGroup st.1 groupBorderSize group,
        st.2 + (group.right - group.left + 1) * (group.bottom - group.top + 1)))
    (flagsImage, (0 : ℤ))
  { flagsImage := painted.1, diffGroups := merged, groupCount := painted.2 }

/-! ## Render graph executor (`render` in `diff.ts`) -/

/-- `RenderOutputMap` from `diff.ts`: a float valuemap, an int valuemap,
or an RGB/RGBA bitmap. -/
inductive RenderMap where
  | intmap (m : IntValuemap)
  | floatmap (width height : ℕ) (data : ℕ → ℚ)
  | rgbmap (m : RgbBitmap)

/-- `RenderProgram` from `diff.ts`: declared option defaults, named
dependencies, and a generation function over the resolved map collection. -/
structure RenderProgram where
  options : String → Option ℕ
  inputs : List String
  fn : (String → Option RenderMap) → (String → Option ℕ) → RenderMap

/-- Failures raised during render resolution.  `outOfFuel` models the
unbounded recursion of the JS original on cyclic dependencies. -/
inductive RenderErr where
  | missingProgram (name : String)
  | outOfFuel
deriving DecidableEq

/-- The option spread `{ ...program.options, ...outputOptions }`
(later spread wins). -/
def mergeOptions (programOptions outputOptions : String → Option ℕ) :
    String → Option ℕ :=
  fun key =>
    match outputOptions key with
    | some v => some v
    | none => programOptions key

mutual

/-- `generateMap` inside `render`: memoized resolution of one name.
`fuel` bounds the recursion depth (the JS original recurses unboundedly on
cyclic dependencies).  Returns the resolved raster, the updated resolution
cache, and the list of program invocations performed, in invocation order. -/
def generateMap (fuel : ℕ) (outputPrograms : String → Option RenderProgram)
    (outputOptions : String → Option ℕ) (allMaps : String → Option RenderMap)
    (name : String) :
    Except RenderErr (RenderMap × (String → Option RenderMap) × List String) :=
  match fuel with
  | 0 => .error .outOfFuel
  | fuel + 1 =>
    match allMaps name with
    | some value => .ok (value, allMaps, [])
    | none =>
      match outputPrograms name with
      | none => .error (.missingProgram name)
      | some program => do
        let (allMaps1, log1) ←
          generateList fuel outputPrograms outputOptions allMaps program.inputs
        let result := program.fn allMaps1 (mergeOptions program.options outputOptions)
        .ok (result, fun n => if n = name then some result else allMaps1 n,
          log1 ++ [name])
termination_by (fuel, 0)

/-- The `for (const input of program.inputs) generateMap(input)` loop. -/
def generateList (fuel : ℕ) (outputPrograms : String → Option RenderProgram)
    (outputOptions : String → Option ℕ) (allMaps : String → Option RenderMap)
    (names : List String) :
    Except RenderErr ((String → Option RenderMap) × List String) :=
  match names with
  | [] => .ok (allMaps, [])
  | input :: rest => do
    let (_, allMaps1, log1) ←
      generateMap fuel outputPrograms outputOptions allMaps input
    let (allMaps2, log2) ←
      generateList fuel outputPrograms outputOptions allMaps1 rest
    .ok (allMaps2, log1 ++ log2)
termination_by (fuel, names.length + 1)

end

/-- The output loop of `render`: `outputImages[name] = generateMap(name)`. -/
def renderLoop (fuel : ℕ) (outputPrograms : String → Option RenderProgram)
    (outputOptions : String → Option ℕ)
    (allMaps outputImages : String → Option RenderMap) :
    List String →
    Except RenderErr
      ((String → Option RenderMap) × (String → Option RenderMap) × List String)
  | [] => .ok (outputImages, allMaps, [])
  | outputName :: rest => do
    let (value, allMaps1, log1) ←
      generateMap fuel outputPrograms outputOptions allMaps outputName
    let (outputImages2, allMaps2, log2) ←
      renderLoop fuel outputPrograms outputOptions allMaps1
        (fun n => if n = outputName then some value else outputImages n) rest
    .ok (outputImages2, allMaps2, log1 ++ log2)

/-- `render` from `diff.ts`: seed the cache with `flags` / `original` /
`changed` and resolve each requested output name. -/
def render (flagsImage : IntValuemap) (sourceImages : List RgbBitmap)
    (output : List String) (outputOptions : String → Option ℕ)
    (outputPrograms : String → Option RenderProgram) (fuel : ℕ) :
    Except RenderErr
      ((String → Option RenderMap) × (String → Option RenderMap) × List String) :=
  let allMaps : String → Option RenderMap := fun name =>
    if name = "flags" then some (.intmap flagsImage)
    else if name = "original" then sourceImages.head?.map .rgbmap
    else if name = "changed" then sourceImages.getLast?.map .rgbmap
    else none
  renderLoop fuel outputPrograms outputOptions allMaps (fun _ => none) output

/-! ## Diff orchestrator (`diff` in `diff.ts`) -/

/-- Result of a JavaScript division whose divisor may be zero:
`0/0` is `NaN`, `n/0` is `±Infinity` for `n ≠ 0`. -/
inductive JsDivResult where
  | nan
  | posInf
  | negInf
  | val (q : ℚ)
deriving DecidableEq

/-- JavaScript division. -/
def jsDiv (n d : ℚ) : JsDivResult :=
  if d = 0 then
    if n = 0 then .nan else if 0 < n then .posInf else .negInf
  else
    .val (n / d)

/-- JavaScript `>=` against such a result (`NaN >= m` is false). -/
def JsDivResult.jsGe (v : JsDivResult) (m : ℚ) : Bool :=
  match v with
  | .nan => false
  | .posInf => true
  | .negInf => false
  | .val q => decide (m ≤ q)

/-- `DiffStatus` from `diff.ts`. -/
inductive DiffStatus where
  | identical
  | similar
  | different
  | mismatch
deriving DecidableEq

/-- Fully-resolved options of `diff` (the `{...DEFAULT_OPTIONS, ...options}`
merge result). -/
structure DiffOptions where
  changedMinDistance : ℚ
  antialiasMinDistance : ℚ
  antialiasMaxDistance : ℚ
  backgroundMaxContrast : ℚ
  groupMergeMaxGapSize : ℤ
  groupBorderSize : ℤ
  groupPaddingSize : ℤ
  diffIncludeAntialias : Bool
  diffIncludeBackground : Bool
  diffIncludeForeground : Bool
  mismatchMinPercent : ℚ
  output : List String
  outputWhenStatus : List DiffStatus
  outputOptions : String → Option ℕ
  outputPrograms : String → Option RenderProgram

/-- `pixelCounts` in the result of `diff` (`{...flagsCounts, ...groupCounts}`). -/
structure PixelCounts where
  all : ℕ
  diff : ℕ
  compared : ℕ
  group : ℤ
  significance : SignificanceCounts
  similarity : SimilarityCounts
deriving DecidableEq

/-- `pixelPercent` in the result of `diff`. -/
structure PixelPercent where
  compared : JsDivResult
  diff : JsDivResult
  group : JsDivResult
  diffCompared : JsDivResult
deriving DecidableEq

/-- Errors thrown by `diff`: input validation before pixel work, or a
render-resolution failure. -/
inductive DiffErr where
  | tooFewImages
  | dimensionMismatch
  | render (e : RenderErr)
deriving DecidableEq

/-- Result of `diff` (timings omitted: wall-clock only). -/
structure DiffResult where
  outputImages : String → Option RenderMap
  diffStatus : DiffStatus
  pixelCounts : PixelCounts
  pixelPercent : PixelPercent
  diffGroups : List AbsBox

/-- The `pixelPercent` assembly of `diff` (lines 760–765): JavaScript
divisions by the pixel totals, with no guard on a zero divisor. -/
def assemblePixelPercent (pixelCounts : PixelCounts) : PixelPercent :=
  { compared := jsDiv (100 * (pixelCounts.compared : ℚ)) (pixelCounts.all : ℚ)
    diff := jsDiv (100 * (pixelCounts.diff : ℚ)) (pixelCounts.all : ℚ)
    group := jsDiv (100 * (pixelCounts.group : ℚ)) (pixelCounts.all : ℚ)
    diffCompared := jsDiv (100 * (pixelCounts.diff : ℚ)) (pixelCounts.compared : ℚ) }

/-- The status computation of `diff` (lines 767–784). -/
def computeDiffStatus (pixelCounts : PixelCounts) (pixelPercent : PixelPercent)
    (mismatchMinPercent : ℚ) : DiffStatus :=
  if pixelCounts.diff ≠ 0 then
    if pixelPercent.diff.jsGe mismatchMinPercent then .mismatch
    else .different
  else
    if pixelCounts.similarity.similar.all ≠ 0 then .similar
    else .identical

/-- The validating `sourceImages.map(...)` of `diff`: the first image whose
dimensions differ from the first image's causes the whole call to fail. -/
def convertImages (width height : ℕ) :
    List RgbBitmap → Except DiffErr (List YiqFloatmap)
  | [] => .ok []
  | image :: rest =>
    if image.width ≠ width ∨ image.height ≠ height then
      .error .dimensionMismatch
    else do
      let restYiq ← convertImages width height rest
      .ok (rgbToYiq image :: restYiq)

/-- `diff` from `diff.ts`: validate, convert to YIQ, classify, group,
derive percentages and status, and conditionally render outputs. -/
def diff (sourceImages : List RgbBitmap) (options : DiffOptions) (fuel : ℕ) :
    Except DiffErr DiffResult :=
  if sourceImages.length < 2 then
    .error .tooFewImages
  else
    let width := (sourceImages.headD default).width
    let height := (sourceImages.headD default).height
    match convertImages width height sourceImages with
    | .error e => .error e
    | .ok yiqImages =>
      let flagsImage0 : IntValuemap := ⟨width, height, fun _ => 0⟩
      let flagsOut := flags flagsImage0 yiqImages
        options.changedMinDistance options.antialiasMinDistance
        options.antialiasMaxDistance options.backgroundMaxContrast
        options.diffIncludeAntialias options.diffIncludeBackground
        options.diffIncludeForeground
      let groupsResult := groups flagsOut.1 options.groupMergeMaxGapSize
        options.groupBorderSize options.groupPaddingSize
      let pixelCounts : PixelCounts :=
        { all := flagsOut.2.all
          diff := flagsOut.2.diff
          compared := flagsOut.2.compared
          group := groupsResult.groupCount
          significance := flagsOut.2.significance
          similarity := flagsOut.2.similarity }
      let pixelPercent := assemblePixelPercent pixelCounts
      let diffStatus := computeDiffStatus pixelCounts pixelPercent
        options.mismatchMinPercent
      if options.outputWhenStatus.contains diffStatus then
        match render flagsOut.1 sourceImages options.output
            options.outputOptions options.outputPrograms fuel with
        | .error e => .error (.render e)
        | .ok (outputImages, _, _) =>
          .ok { outputImages, diffStatus, pixelCounts, pixelPercent,
                diffGroups := groupsResult.diffGroups }
      else
        .ok { outputImages := fun _ => none, diffStatus, pixelCounts,
              pixelPercent, diffGroups := groupsResult.diffGroups }

/-! ## Specification-side definitions and concrete test inputs -/

/-- The status rule exactly as the specification words it: `mismatch` if
`diffCount > 0` and `(diffCount / allCount × 100) ≥ mismatchMinPercent`;
else `different` if `diffCount > 0`; else `similar` if the similar pixel
count is positive; else `identical`. -/
def specDiffStatus (diffCount allCount similarCount : ℕ)
    (mismatchMinPercent : ℚ) : DiffStatus :=
  if 0 < diffCount ∧ mismatchMinPercent ≤ (diffCount : ℚ) / (allCount : ℚ) * 100 then
    .mismatch
  else if 0 < diffCount then .different
  else if 0 < similarCount then .similar
  else .identical

/-- Number of distinct pixels of a `width × height` map lying in at least
one box of the list. -/
def paintedCount (boxes : List AbsBox) (width height : ℕ) : ℕ :=
  ((List.range (width * height)).filter fun i =>
    boxes.any fun g => boxContainsPoint g (((i % width : ℕ) : ℤ), ((i / width : ℕ) : ℤ))).length

/-- A region is well-formed and fully inside a `width × height` map:
`left ≤ right`, `top ≤ bottom`, and all coordinates within bounds. -/
def boxInBounds (width height : ℕ) (b : AbsBox) : Prop :=
  0 ≤ b.left ∧ b.left ≤ b.right ∧ b.right ≤ (width : ℤ) - 1 ∧
    0 ≤ b.top ∧ b.top ≤ b.bottom ∧ b.bottom ≤ (height : ℤ) - 1

instance (width height : ℕ) (b : AbsBox) : Decidable (boxInBounds width height b) := by
  unfold boxInBounds; infer_instance

/-- Area of a region with inclusive coordinates. -/
def boxArea (b : AbsBox) : ℤ :=
  (b.right - b.left + 1) * (b.bottom - b.top + 1)

/-- A 1×1 all-black RGB bitmap. -/
def img1 : RgbBitmap := ⟨1, 1, 3, fun _ => 0⟩

/-- The YIQ image of `img1`. -/
def yiq1 : YiqFloatmap := ⟨1, 1, fun _ => 0⟩

/-- A 1×1 YIQ image with all channel values 1 (distinct from `yiq1`). -/
def yiq2 : YiqFloatmap := ⟨1, 1, fun _ => 1⟩

/-- A concrete full option set (the library defaults, no outputs requested). -/
def opts0 : DiffOptions :=
  { changedMinDistance := 15, antialiasMinDistance := 12, antialiasMaxDistance := 150
    backgroundMaxContrast := 25, groupMergeMaxGapSize := 80, groupBorderSize := 15
    groupPaddingSize := 80, diffIncludeAntialias := false, diffIncludeBackground := false
    diffIncludeForeground := true, mismatchMinPercent := 50, output := []
    outputWhenStatus := [.different, .mismatch], outputOptions := fun _ => none
    outputPrograms := fun _ => none }

/-- Expected flag-phase counts for `diff [img1, img1]`. -/
def countsA : FlagsPixelCounts :=
  { all := 1, diff := 0, compared := 0
    significance := ⟨0, 1, 0⟩
    similarity := ⟨⟨0, 0, 0, 0⟩, ⟨1, 0, 1, 0⟩, ⟨0, 0, 0, 0⟩⟩ }

/-- Expected result of `diff [img1, img1] opts0`. -/
def res0 : DiffResult :=
  { outputImages := fun _ => none
    diffStatus := .identical
    pixelCounts :=
      { all := 1, diff := 0, compared := 0, group := 0
        significance := ⟨0, 1, 0⟩
        similarity := ⟨⟨0, 0, 0, 0⟩, ⟨1, 0, 1, 0⟩, ⟨0, 0, 0, 0⟩⟩ }
    pixelPercent := ⟨.val 0, .val 0, .val 0, .nan⟩
    diffGroups := [] }

/-- A 1×1 zero flag map for render tests. -/
def flagMap1 : IntValuemap := ⟨1, 1, fun _ => 0⟩

/-- A render program with no dependencies, producing a blank int map. -/
def progA : RenderProgram :=
  { options := fun _ => none, inputs := [], fn := fun _ _ => .intmap flagMap1 }

/-- A catalog with the single program `"A"`. -/
def progs0 : String → Option RenderProgram :=
  fun name => if name = "A" then some progA else none

/-- A trivial rank function witnessing acyclicity of `progs0`. -/
def rank0 : String → ℕ := fun _ => 0

/-- Flag map of the 5×4 scenario with diff pixels at (4,0), (0,1), (2,1),
(1,3): the final merged regions overlap. -/
def overlapFlagMap : IntValuemap :=
  ⟨5, 4, fun i => if i = 4 ∨ i = 5 ∨ i = 7 ∨ i = 16 then 1 else 0⟩

/-- Flag map of the 9×2 scenario with diff pixels at (0,0), (6,0), (3,1),
(5,1), (7,1): growing the padding shrinks the largest final region. -/
def padShrinkFlagMap : IntValuemap :=
  ⟨9, 2, fun i => if i = 0 ∨ i = 6 ∨ i = 12 ∨ i = 14 ∨ i = 16 then 1 else 0⟩

/-! ## Supporting lemmas -/

theorem rgbToYiq_width (image : RgbBitmap) : (rgbToYiq image).width = image.width := rfl

theorem rgbToYiq_height (image : RgbBitmap) : (rgbToYiq image).height = image.height := rfl

theorem convertImages_ok_iff (width height : ℕ) (images : List RgbBitmap) :
    (∃ out, convertImages width height images = .ok out) ↔
      ∀ image ∈ images, image.width = width ∧ image.height = height := by
  induction images with
  | nil => simp [convertImages]
  | cons image rest ih =>
    constructor
    · intro ⟨out, hout⟩
      unfold convertImages at hout
      split at hout
      · exact absurd hout (by simp)
      · next hdim =>
        push_neg at hdim
        intro img hmem
        rcases List.mem_cons.mp hmem with rfl | hmem
        · exact hdim
        · refine ih.mp ?_ img hmem
          cases hrest : convertImages width height rest with
          | error e => simp [hrest, Except.bind, bind] at hout
          | ok out' => exact ⟨out', rfl⟩
    · intro hall
      have h1 := hall image (by simp)
      obtain ⟨out', hout'⟩ := ih.mpr fun img hmem => hall img (by simp [hmem])
      refine ⟨rgbToYiq image :: out', ?_⟩
      unfold convertImages
      rw [if_neg (by simp [h1.1, h1.2])]
      simp [hout', Except.bind, bind]

theorem convertImages_error_eq (width height : ℕ) (images : List RgbBitmap)
    (e : DiffErr) (h : convertImages width height images = .error e) :
    e = .dimensionMismatch := by
  induction images with
  | nil => simp [convertImages] at h
  | cons image rest ih =>
    unfold convertImages at h
    split at h
    · exact (Except.error.inj h).symm
    · cases hrest : convertImages width height rest with
      | error e' =>
        rw [hrest] at h
        simp only [Except.bind, bind] at h
        exact ih (by rw [hrest, Except.error.inj h])
      | ok out' =>
        rw [hrest] at h
        simp [Except.bind, bind] at h

theorem convertImages_ok_map (width height : ℕ) (images : List RgbBitmap)
    (out : List YiqFloatmap) (h : convertImages width height images = .ok out) :
    out = images.map rgbToYiq := by
  induction images generalizing out with
  | nil => simp [convertImages] at h; simp [h.symm]
  | cons image rest ih =>
    unfold convertImages at h
    split at h
    · simp at h
    · cases hrest : convertImages width height rest with
      | error e => rw [hrest] at h; simp [Except.bind, bind] at h
      | ok out' =>
        rw [hrest] at h
        simp only [Except.bind, bind, Except.ok.injEq] at h
        simp [← h, ih out' hrest]

theorem flags_foldl_counts (images : List YiqFloatmap)
    (cmd amin amax bmax : ℚ) (ia ib ifg : Bool) (w : ℕ) :
    ∀ (l : List ℕ) (st : IntValuemap × FlagsPixelCounts),
      st.2.diff ≤ st.2.compared → st.2.compared + l.length ≤ st.2.all →
      (List.foldl (flagsStep images cmd amin amax bmax ia ib ifg w) st l).2.diff ≤
          (List.foldl (flagsStep images cmd amin amax bmax ia ib ifg w) st l).2.compared ∧
        (List.foldl (flagsStep images cmd amin amax bmax ia ib ifg w) st l).2.compared ≤
          (List.foldl (flagsStep images cmd amin amax bmax ia ib ifg w) st l).2.all ∧
        (List.foldl (flagsStep images cmd amin amax bmax ia ib ifg w) st l).2.all = st.2.all := by
  intro l
  induction l with
  | nil =>
    intro st h1 h2
    simp only [List.foldl_nil]
    exact ⟨h1, by simpa using h2, trivial⟩
  | cons i rest ih =>
    intro st h1 h2
    simp only [List.foldl_cons]
    have hstep :
        (flagsStep images cmd amin amax bmax ia ib ifg w st i).2.all = st.2.all ∧
        (flagsStep images cmd amin amax bmax ia ib ifg w st i).2.diff ≤
          (flagsStep images cmd amin amax bmax ia ib ifg w st i).2.compared ∧
        (flagsStep images cmd amin amax bmax ia ib ifg w st i).2.compared ≤
          st.2.compared + 1 := by
      simp only [flagsStep]
      refine ⟨by trivial, ?_, ?_⟩
      · cases hs : decide (similarityFlag images (i % w) (i / w) cmd = SimilarityFlagName.changed) <;>
          cases hc : ((ifg && decide (significanceFlag images (i % w) (i / w) amin amax bmax = SignificanceFlagName.foreground)) ||
            (ib && decide (significanceFlag images (i % w) (i / w) amin amax bmax = SignificanceFlagName.background)) ||
            (ia && decide (significanceFlag images (i % w) (i / w) amin amax bmax = SignificanceFlagName.antialias))) <;>
          simp [hs, hc] <;> omega
      · cases hc : ((ifg && decide (significanceFlag images (i % w) (i / w) amin amax bmax = SignificanceFlagName.foreground)) ||
            (ib && decide (significanceFlag images (i % w) (i / w) amin amax bmax = SignificanceFlagName.background)) ||
            (ia && decide (significanceFlag images (i % w) (i / w) amin amax bmax = SignificanceFlagName.antialias))) <;>
          simp [hc]
    have := ih (flagsStep images cmd amin amax bmax ia ib ifg w st i)
      hstep.2.1 (by simp only [List.length_cons] at h2; omega)
    exact ⟨this.1, this.2.1, by rw [this.2.2, hstep.1]⟩

theorem diff_ok_spec (sourceImages : List RgbBitmap) (options : DiffOptions)
    (fuel : ℕ) (res : DiffResult) (h : diff sourceImages options fuel = .ok res) :
    res.pixelPercent = assemblePixelPercent res.pixelCounts ∧
    res.diffStatus = computeDiffStatus res.pixelCounts res.pixelPercent
      options.mismatchMinPercent ∧
    res.pixelCounts.diff ≤ res.pixelCounts.compared ∧
    res.pixelCounts.compared ≤ res.pixelCounts.all := by
  unfold diff at h
  dsimp only [] at h
  split at h
  · simp at h
  next hlen =>
  split at h
  · simp at h
  next yiqImages hconv =>
  have hmap := convertImages_ok_map _ _ _ _ hconv
  have hne : sourceImages ≠ [] := by
    intro hnil; rw [hnil] at hlen; simp at hlen
  have hhead : (yiqImages.headD default).width = (sourceImages.headD default).width ∧
      (yiqImages.headD default).height = (sourceImages.headD default).height := by
    cases sourceImages with
    | nil => exact absurd rfl hne
    | cons a l => simp [hmap, rgbToYiq_width, rgbToYiq_height]
  have hcounts := flags_foldl_counts yiqImages options.changedMinDistance
    options.antialiasMinDistance options.antialiasMaxDistance
    options.backgroundMaxContrast options.diffIncludeAntialias
    options.diffIncludeBackground options.diffIncludeForeground
    (yiqImages.headD default).width
    (List.range ((yiqImages.headD default).width * (yiqImages.headD default).height))
    (⟨(sourceImages.headD default).width, (sourceImages.headD default).height, fun _ => 0⟩,
      { all := (sourceImages.headD default).width * (sourceImages.headD default).height
        diff := 0, compared := 0
        significance := ⟨0, 0, 0⟩
        similarity := ⟨⟨0, 0, 0, 0⟩, ⟨0, 0, 0, 0⟩, ⟨0, 0, 0, 0⟩⟩ })
    (by simp)
    (by dsimp only; rw [List.length_range, hhead.1, hhead.2]; omega)
  have hflagsle :
      (flags ⟨(sourceImages.headD default).width, (sourceImages.headD default).height,
          fun _ => 0⟩ yiqImages options.changedMinDistance options.antialiasMinDistance
          options.antialiasMaxDistance options.backgroundMaxContrast
          options.diffIncludeAntialias options.diffIncludeBackground
          options.diffIncludeForeground).2.diff ≤
        (flags ⟨(sourceImages.headD default).width, (sourceImages.headD default).height,
          fun _ => 0⟩ yiqImages options.changedMinDistance options.antialiasMinDistance
          options.antialiasMaxDistance options.backgroundMaxContrast
          options.diffIncludeAntialias options.diffIncludeBackground
          options.diffIncludeForeground).2.compared ∧
      (flags ⟨(sourceImages.headD default).width, (sourceImages.headD default).height,
          fun _ => 0⟩ yiqImages options.changedMinDistance options.antialiasMinDistance
          options.antialiasMaxDistance options.backgroundMaxContrast
          options.diffIncludeAntialias options.diffIncludeBackground
          options.diffIncludeForeground).2.compared ≤
        (flags ⟨(sourceImages.headD default).width, (sourceImages.headD default).height,
          fun _ => 0⟩ yiqImages options.changedMinDistance options.antialiasMinDistance
          options.antialiasMaxDistance options.backgroundMaxContrast
          options.diffIncludeAntialias options.diffIncludeBackground
          options.diffIncludeForeground).2.all := by
    simp only [flags]
    exact ⟨hcounts.1, hcounts.2.1⟩
  split at h
  · split at h
    · simp at h
    · cases Except.ok.inj h
      exact ⟨rfl, rfl, hflagsle.1, hflagsle.2⟩
  · cases Except.ok.inj h
    exact ⟨rfl, rfl, hflagsle.1, hflagsle.2⟩

theorem rgbToYiq_img1 : rgbToYiq ⟨1, 1, 3, fun _ => 0⟩ = yiq1 := by
  unfold rgbToYiq yiq1
  norm_num [RgbBitmap.pixel, yiqPixel]

theorem convertImages_img1 : convertImages 1 1 [img1, img1] = .ok [yiq1, yiq1] := by
  simp [convertImages, img1, Except.bind, bind, rgbToYiq_img1]

theorem similarityFlag_img1 : similarityFlag [yiq1, yiq1] 0 0 15 = .identical := by
  norm_num [similarityFlag, yiq1, loopMax, pairDiffs, absColorDistance, colorDistance,
    YiqFloatmap.pixel, YiqFloatmap.offset, List.headD]

theorem significanceFlag_img1 :
    significanceFlag [yiq1, yiq1] 0 0 12 150 25 = .background := by
  norm_num [significanceFlag, significanceLoop, adjacentStats, adjacentPoints,
    pixelSignificanceOf, yiq1, YiqFloatmap.pixel, YiqFloatmap.offset, List.headD]
  rfl

theorem flags_img1 :
    flags ⟨1, 1, fun _ => 0⟩ [yiq1, yiq1] 15 12 150 25 false false true =
      ((IntValuemap.mk 1 1 fun _ => 0).setPixel 0 0, countsA) := by
  simp only [flags, List.headD_cons, show yiq1.width = 1 from rfl,
    show yiq1.height = 1 from rfl, Nat.mul_one, List.range_succ, List.range_zero,
    List.nil_append, List.foldl_cons, List.foldl_nil, flagsStep, Nat.zero_mod,
    Nat.zero_div, similarityFlag_img1, significanceFlag_img1]
  rfl

/-- Full evaluation of `diff` on two identical 1×1 black images: status
`identical`, no compared pixels, and a `NaN` `diffCompared` percentage. -/
theorem diff_img1_eval : diff [img1, img1] opts0 10 = .ok res0 := by
  unfold diff
  simp only [List.length_cons, List.length_nil, List.headD_cons,
    show img1.width = 1 from rfl, show img1.height = 1 from rfl, convertImages_img1]
  norm_num [opts0]
  rw [flags_img1]
  norm_num [groups, scanGroups, scanStep, mergeStepScan, mergeGroups, diffDifferentValue,
    List.range_succ, List.range_zero, List.filter, IntValuemap.setPixel, jsDiv,
    JsDivResult.jsGe, assemblePixelPercent, computeDiffStatus, res0, countsA]
  rintro (h | h) <;> simp at h

/-! ## Claim theorems -/

/-- C1: for every completed `diff` invocation, the returned `diffStatus` is
`mismatch` if `pixelCounts.diff > 0` and `(pixelCounts.diff / pixelCounts.all
× 100) ≥ mismatchMinPercent`; else `different` if `pixelCounts.diff > 0`;
else `similar` if the similar pixel count is positive; else `identical`. -/
theorem diff_status_follows_spec (sourceImages : List RgbBitmap)
    (options : DiffOptions) (fuel : ℕ) (res : DiffResult)
    (h : diff sourceImages options fuel = .ok res) :
    res.diffStatus = specDiffStatus res.pixelCounts.diff res.pixelCounts.all
      res.pixelCounts.similarity.similar.all options.mismatchMinPercent := by
  obtain ⟨hpp, hstat, hdc, hca⟩ := diff_ok_spec sourceImages options fuel res h
  rw [hstat, hpp]
  by_cases hd : res.pixelCounts.diff = 0
  · simp [computeDiffStatus, specDiffStatus, hd, Nat.pos_iff_ne_zero]
  · have hall : res.pixelCounts.all ≠ 0 := by omega
    have hallQ : ((res.pixelCounts.all : ℚ)) ≠ 0 := Nat.cast_ne_zero.mpr hall
    have harith : 100 * (res.pixelCounts.diff : ℚ) / (res.pixelCounts.all : ℚ) =
        (res.pixelCounts.diff : ℚ) / (res.pixelCounts.all : ℚ) * 100 := by ring
    simp only [computeDiffStatus, specDiffStatus, assemblePixelPercent, jsDiv,
      if_neg hallQ, JsDivResult.jsGe, hd, Nat.pos_of_ne_zero hd, harith]
    by_cases hcmp : options.mismatchMinPercent ≤
        (res.pixelCounts.diff : ℚ) / (res.pixelCounts.all : ℚ) * 100 <;>
      simp [hcmp, Nat.pos_of_ne_zero hd] <;>
      exact fun h0 => absurd h0 hd

/-- Witness for C1: the concrete 1×1 run, where the status is `identical`
and agrees with the specification's rule. -/
theorem diff_status_follows_spec_witness :
    diff [img1, img1] opts0 10 = .ok res0 ∧
      res0.diffStatus = specDiffStatus res0.pixelCounts.diff res0.pixelCounts.all
        res0.pixelCounts.similarity.similar.all opts0.mismatchMinPercent :=
  ⟨diff_img1_eval, diff_status_follows_spec [img1, img1] opts0 10 res0 diff_img1_eval⟩

/-- C2 (divergence witness): at the failing input — two identical 1×1 black
images with default options, so every pixel is background and backgrounds are
not compared — `pixelCounts.compared = 0`, and the returned
`pixelPercent.diffCompared` is the `NaN` of the JavaScript division `0 / 0`,
not `0`. -/
theorem diffCompared_nan_when_compared_zero :
    diff [img1, img1] opts0 10 = .ok res0 ∧ res0.pixelCounts.compared = 0 ∧
      res0.pixelPercent.diffCompared = .nan ∧ res0.pixelPercent.diffCompared ≠ .val 0 :=
  ⟨diff_img1_eval, rfl, rfl, by simp [res0]⟩

/-- C6: `diff` fails with an input-validation error exactly when fewer than
2 images are supplied or some image's dimensions differ from the first
image's; the validation precedes all per-pixel work in the definition of
`diff`, and no valid input produces such an error. -/
theorem diff_invalid_input_iff (sourceImages : List RgbBitmap)
    (options : DiffOptions) (fuel : ℕ) :
    (diff sourceImages options fuel = .error .tooFewImages ∨
        diff sourceImages options fuel = .error .dimensionMismatch) ↔
      (sourceImages.length < 2 ∨ ∃ image ∈ sourceImages,
        image.width ≠ (sourceImages.headD default).width ∨
        image.height ≠ (sourceImages.headD default).height) := by
  unfold diff
  dsimp only []
  by_cases hlen : sourceImages.length < 2
  · simp [if_pos hlen, hlen]
  · rw [if_neg hlen]
    cases hc : convertImages (sourceImages.headD default).width
        (sourceImages.headD default).height sourceImages with
    | error e =>
      have he := convertImages_error_eq _ _ _ _ hc
      subst he
      apply iff_of_true
      · exact Or.inr rfl
      · right
        by_contra hno
        push_neg at hno
        obtain ⟨out, hout⟩ :=
          (convertImages_ok_iff (sourceImages.headD default).width
            (sourceImages.headD default).height sourceImages).mpr hno
        rw [hout] at hc
        exact absurd hc (by simp)
    | ok yiqImages =>
      apply iff_of_false
      · intro hl
        simp only [hc] at hl
        rcases hl with hl | hl <;>
          { split at hl
            all_goals try split at hl
            all_goals simp at hl }
      · intro hr
        rcases hr with hr | hr
        · exact hlen hr
        · obtain ⟨image, hmem, hdim⟩ := hr
          have := (convertImages_ok_iff _ _ sourceImages).mp ⟨_, hc⟩ image hmem
          rcases hdim with hdim | hdim <;> [exact hdim this.1; exact hdim this.2]

/-- C3 counterexample: at `(1,1)` in a 3×3 raster, `iterateAdjacent` visits
only `(2,2)`; the in-bounds diagonal neighbour `(0,0)` — which the claim,
with its `0 ≤ nx` / `0 ≤ ny` bounds, says is visited — is skipped, because
the source tests `posX > 0 && posY > 0`. -/
theorem iterateAdjacent_cex :
    adjacentPoints 3 3 1 1 = [(2, 2)] ∧
      ((0 : ℤ), (0 : ℤ)) ∉ adjacentPoints 3 3 1 1 ∧
      (0 : ℤ) = 1 - 1 ∧ (0 : ℤ) ≤ 0 ∧ (0 : ℤ) < 3 := by
  decide

/-- C3 (amended): `iterateAdjacent(x, y)` visits exactly the diagonal
neighbours `(x±1, y±1)` satisfying `0 < nx < width` and `0 < ny < height`
(row 0 and column 0 excluded), visiting at most 4 positions. -/
theorem iterateAdjacent_visits (width height : ℕ) (x y nx ny : ℤ) :
    ((nx, ny) ∈ adjacentPoints width height x y ↔
      (nx = x - 1 ∨ nx = x + 1) ∧ (ny = y - 1 ∨ ny = y + 1) ∧
        0 < nx ∧ nx < (width : ℤ) ∧ 0 < ny ∧ ny < (height : ℤ)) ∧
    (adjacentPoints width height x y).length ≤ 4 := by
  constructor
  · simp only [adjacentPoints, List.mem_flatMap, List.mem_map, List.mem_filter,
      decide_eq_true_eq, List.mem_cons, List.mem_singleton, List.not_mem_nil,
      Prod.mk.injEq]
    constructor
    · rintro ⟨py, ⟨hpy, hby⟩, px, ⟨hpx, hbx⟩, rfl, rfl⟩
      exact ⟨by tauto, by tauto, hbx.1, hbx.2, hby.1, hby.2⟩
    · rintro ⟨hx, hy, h1, h2, h3, h4⟩
      exact ⟨ny, ⟨by tauto, h3, h4⟩, nx, ⟨by tauto, h1, h2⟩, rfl, rfl⟩
  · unfold adjacentPoints
    have houter := List.length_filter_le
      (fun posY => decide (0 < posY ∧ posY < (height : ℤ))) [y - 1, y + 1]
    have hinner := List.length_filter_le
      (fun posX => decide (0 < posX ∧ posX < (width : ℤ))) [x - 1, x + 1]
    calc (((([y - 1, y + 1]).filter fun posY => decide (0 < posY ∧ posY < (height : ℤ))).flatMap
            fun posY => (([x - 1, x + 1]).filter fun posX =>
              decide (0 < posX ∧ posX < (width : ℤ))).map fun posX => (posX, posY))).length
        ≤ (([y - 1, y + 1]).filter fun posY => decide (0 < posY ∧ posY < (height : ℤ))).length * 2 := by
          rw [List.length_flatMap]
          apply le_trans (List.sum_le_card_nsmul _ 2 ?_)
          · simp [smul_eq_mul]
          · intro a ha
            simp only [List.mem_map] at ha
            obtain ⟨posY, _, rfl⟩ := ha
            simpa using hinner
      _ ≤ 4 := by
          have : (([y - 1, y + 1]).filter fun posY =>
            decide (0 < posY ∧ posY < (height : ℤ))).length ≤ 2 := by simpa using houter
          omega

/-! Bounds invariants for the region grouper (C5). -/

theorem mergeStepScan_bounds (width height : ℕ) (gap x y : ℤ)
    (hx : 0 ≤ x ∧ x ≤ (width : ℤ) - 1) (hy : 0 ≤ y ∧ y ≤ (height : ℤ) - 1) :
    ∀ (gs gs' : List AbsBox), mergeStepScan gap x y gs = some gs' →
      (∀ b ∈ gs, boxInBounds width height b) →
      ∀ b ∈ gs', boxInBounds width height b := by
  intro gs
  induction gs with
  | nil => intro gs' h; simp [mergeStepScan] at h
  | cons g rest ih =>
    intro gs' h hall
    unfold mergeStepScan at h
    split at h
    · cases Option.some.inj h
      intro b hb
      rcases List.mem_cons.mp hb with rfl | hb
      · have hg := hall g (by simp)
        unfold boxInBounds at hg ⊢
        dsimp only
        omega
      · exact hall b (by simp [hb])
    · cases hrec : mergeStepScan gap x y rest with
      | none => rw [hrec] at h; simp at h
      | some rest' =>
        rw [hrec] at h
        simp only [Option.map_some', Option.some.injEq] at h
        cases h
        intro b hb
        rcases List.mem_cons.mp hb with rfl | hb
        · exact hall b (by simp)
        · exact ih rest' hrec (fun b' hb' => hall b' (by simp [hb'])) b hb

theorem scanStep_bounds (width height : ℕ) (gap x y : ℤ)
    (hx : 0 ≤ x ∧ x ≤ (width : ℤ) - 1) (hy : 0 ≤ y ∧ y ≤ (height : ℤ) - 1)
    (gs : List AbsBox) (hall : ∀ b ∈ gs, boxInBounds width height b) :
    ∀ b ∈ scanStep gap gs x y, boxInBounds width height b := by
  unfold scanStep
  split
  · next gs' hsome => exact mergeStepScan_bounds width height gap x y hx hy gs gs' hsome hall
  · intro b hb
    rcases List.mem_append.mp hb with hb | hb
    · exact hall b hb
    · rcases List.mem_singleton.mp hb with rfl
      unfold boxInBounds
      dsimp only
      omega

theorem scanGroups_bounds (fm : IntValuemap) (gap : ℤ) :
    ∀ b ∈ scanGroups fm gap, boxInBounds fm.width fm.height b := by
  unfold scanGroups
  have haux : ∀ (l : List ℕ) (st : List AbsBox),
      (∀ i ∈ l, i < fm.width * fm.height) →
      (∀ b ∈ st, boxInBounds fm.width fm.height b) →
      ∀ b ∈ l.foldl (fun groups offset =>
          scanStep gap groups ((offset % fm.width : ℕ) : ℤ)
            ((offset / fm.width : ℕ) : ℤ)) st,
        boxInBounds fm.width fm.height b := by
    intro l
    induction l with
    | nil => intro st _ hst; simpa using hst
    | cons i rest ih =>
      intro st hlt hst
      simp only [List.foldl_cons]
      have hi : i < fm.width * fm.height := hlt i (by simp)
      have hw : 0 < fm.width := by
        rcases Nat.eq_zero_or_pos fm.width with hw | hw
        · rw [hw] at hi; simp at hi
        · exact hw
      refine ih _ (fun j hj => hlt j (by simp [hj])) ?_
      refine scanStep_bounds fm.width fm.height gap _ _ ?_ ?_ st hst
      · refine ⟨by positivity, ?_⟩
        have := Nat.mod_lt i hw
        push_cast
        omega
      · refine ⟨by positivity, ?_⟩
        have : i / fm.width < fm.height := Nat.div_lt_of_lt_mul (by omega)
        push_cast
        omega
  intro b hb
  refine haux _ [] (fun i hi => ?_) (by simp) b hb
  exact List.mem_range.mp (List.mem_of_mem_filter hi)

theorem fitBox_bounds (width height : ℕ) (b : AbsBox) (grow : ℤ)
    (hg : 0 ≤ grow) (hb : boxInBounds width height b) :
    boxInBounds width height (fitBox width height b grow) := by
  unfold boxInBounds at hb ⊢
  unfold fitBox
  dsimp only
  omega

theorem mergeStepOverlap_bounds (width height : ℕ) (g : AbsBox)
    (hg : boxInBounds width height g) :
    ∀ (gs gs' : List AbsBox), mergeStepOverlap g gs = some gs' →
      (∀ b ∈ gs, boxInBounds width height b) →
      ∀ b ∈ gs', boxInBounds width height b := by
  intro gs
  induction gs with
  | nil => intro gs' h; simp [mergeStepOverlap] at h
  | cons m rest ih =>
    intro gs' h hall
    unfold mergeStepOverlap at h
    split at h
    · cases Option.some.inj h
      intro b hb
      rcases List.mem_cons.mp hb with rfl | hb
      · have hm := hall m (by simp)
        unfold boxInBounds at hm hg ⊢
        dsimp only
        omega
      · exact hall b (by simp [hb])
    · cases hrec : mergeStepOverlap g rest with
      | none => rw [hrec] at h; simp at h
      | some rest' =>
        rw [hrec] at h
        simp only [Option.map_some', Option.some.injEq] at h
        cases h
        intro b hb
        rcases List.mem_cons.mp hb with rfl | hb
        · exact hall b (by simp)
        · exact ih rest' hrec (fun b' hb' => hall b' (by simp [hb'])) b hb

theorem mergeGroups_bounds (width height : ℕ) (l : List AbsBox)
    (hl : ∀ b ∈ l, boxInBounds width height b) :
    ∀ b ∈ mergeGroups l, boxInBounds width height b := by
  unfold mergeGroups
  have haux : ∀ (rest acc : List AbsBox),
      (∀ b ∈ rest, boxInBounds width height b) →
      (∀ b ∈ acc, boxInBounds width height b) →
      ∀ b ∈ rest.foldl (fun mergedGroups group =>
          match mergeStepOverlap group mergedGroups with
          | some mergedGroups' => mergedGroups'
          | none => mergedGroups ++ [group]) acc,
        boxInBounds width height b := by
    intro rest
    induction rest with
    | nil => intro acc _ hacc; simpa using hacc
    | cons g rest' ih =>
      intro acc hrest hacc
      simp only [List.foldl_cons]
      refine ih _ (fun b hb => hrest b (by simp [hb])) ?_
      have hgB := hrest g (by simp)
      split
      · next gs' hsome => exact mergeStepOverlap_bounds width height g hgB acc gs' hsome hacc
      · intro b hb
        rcases List.mem_append.mp hb with hb | hb
        · exact hacc b hb
        · rcases List.mem_singleton.mp hb with rfl
          exact hgB
  exact haux l [] hl (by simp)

/-- C5: every box in the `diffGroups` list returned by `groups` is
well-formed (`left ≤ right`, `top ≤ bottom`) and lies fully inside the flag
map bounds, provided the padding option is non-negative. -/
theorem groups_boxes_in_bounds (fm : IntValuemap)
    (gap bsize pad : ℤ) (hpad : 0 ≤ pad) :
    ∀ b ∈ (groups fm gap bsize pad).diffGroups, boxInBounds fm.width fm.height b := by
  intro b hb
  have hscan := scanGroups_bounds fm gap
  have hpadded : ∀ b' ∈ (if pad = 0 then scanGroups fm gap
      else (scanGroups fm gap).map fun group => fitBox fm.width fm.height group pad),
      boxInBounds fm.width fm.height b' := by
    split
    · exact hscan
    · intro b' hb'
      obtain ⟨g, hg, rfl⟩ := List.mem_map.mp hb'
      exact fitBox_bounds fm.width fm.height g pad hpad (hscan g hg)
  exact mergeGroups_bounds fm.width fm.height _ hpadded b hb

/-- Witness for C5: in the 5×4 scenario the first returned region is
`(0,0)–(4,3)`, well-formed and inside the map. -/
theorem groups_boxes_in_bounds_witness :
    (0 : ℤ) ≤ 1 ∧
      AbsBox.mk 0 0 4 3 ∈ (groups overlapFlagMap 0 15 1).diffGroups ∧
      boxInBounds 5 4 (AbsBox.mk 0 0 4 3) :=
  ⟨by decide, by decide,
    groups_boxes_in_bounds overlapFlagMap 0 15 1 (by decide)
      (AbsBox.mk 0 0 4 3) (by decide)⟩

/-- C7 counterexample: on the 9×2 flag map with diff pixels (0,0), (6,0),
(3,1), (5,1), (7,1) and merge gap 1, raising `groupPaddingSize` from 1 to 2
shrinks the largest region: padding 1 yields regions of areas 4 and 14,
padding 2 yields two regions of area 12 — no region of the larger-padding
run has area ≥ 14. -/
theorem groupPadding_monotonicity_cex :
    (groups padShrinkFlagMap 1 15 1).diffGroups =
        [AbsBox.mk 0 0 1 1, AbsBox.mk 2 0 8 1] ∧
      (groups padShrinkFlagMap 1 15 2).diffGroups =
        [AbsBox.mk 0 0 5 1, AbsBox.mk 3 0 8 1] ∧
      boxArea (AbsBox.mk 2 0 8 1) = 14 ∧
      boxArea (AbsBox.mk 0 0 5 1) < 14 ∧ boxArea (AbsBox.mk 3 0 8 1) < 14 := by
  decide

/-- C7 (amended): growing `groupPaddingSize` is monotone for each region at
the padding stage — the padded box with the larger grow contains the one
with the smaller grow and its area is at least as large.  (After the final
single merge pass neither the region count nor the region areas are
monotone; see the counterexample.) -/
theorem fitBox_monotone (width height : ℕ) (b : AbsBox) (g g' : ℤ)
    (hb : boxInBounds width height b) (h0 : 0 ≤ g) (hgg : g ≤ g') :
    (fitBox width height b g').left ≤ (fitBox width height b g).left ∧
      (fitBox width height b g).right ≤ (fitBox width height b g').right ∧
      (fitBox width height b g').top ≤ (fitBox width height b g).top ∧
      (fitBox width height b g).bottom ≤ (fitBox width height b g').bottom ∧
      boxArea (fitBox width height b g) ≤ boxArea (fitBox width height b g') := by
  have h1 := fitBox_bounds width height b g h0 hb
  have h2 := fitBox_bounds width height b g' (le_trans h0 hgg) hb
  unfold boxInBounds at h1 h2
  unfold fitBox at h1 h2 ⊢
  unfold boxArea
  dsimp only at h1 h2 ⊢
  refine ⟨by omega, by omega, by omega, by omega, ?_⟩
  apply mul_le_mul <;> omega

/-- Witness for C7's amended statement at a concrete box and grows 1 ≤ 2. -/
theorem fitBox_monotone_witness :
    boxInBounds 5 5 (AbsBox.mk 0 0 0 0) ∧ (0 : ℤ) ≤ 1 ∧ (1 : ℤ) ≤ 2 ∧
      boxArea (fitBox 5 5 (AbsBox.mk 0 0 0 0) 1) ≤
        boxArea (fitBox 5 5 (AbsBox.mk 0 0 0 0) 2) :=
  ⟨by decide, by decide, by decide,
    (fitBox_monotone 5 5 (AbsBox.mk 0 0 0 0) 1 2 (by decide) (by decide)
      (by decide)).2.2.2.2⟩

/-- C9 counterexample: on the 5×4 flag map with diff pixels (4,0), (0,1),
(2,1), (1,3), gap 0 and padding 1, the two final regions overlap; the
reported group pixel count is 26 (sum of areas) while only 20 distinct
pixels lie in at least one region. -/
theorem groups_groupCount_cex :
    (groups overlapFlagMap 0 15 1).diffGroups =
        [AbsBox.mk 0 0 4 3, AbsBox.mk 0 0 1 2] ∧
      (groups overlapFlagMap 0 15 1).groupCount = 26 ∧
      paintedCount (groups overlapFlagMap 0 15 1).diffGroups 5 4 = 20 := by
  decide

/-- C9 (amended): the group pixel count returned by `groups` equals the sum
of the areas of the final regions, counting a pixel once per region that
contains it (so it can exceed the number of distinct painted pixels when
regions overlap). -/
theorem groups_groupCount_eq_area_sum (fm : IntValuemap) (gap bsize pad : ℤ) :
    (groups fm gap bsize pad).groupCount =
      ((groups fm gap bsize pad).diffGroups.map boxArea).sum := by
  unfold groups
  dsimp only
  have haux : ∀ (l : List AbsBox) (m0 : IntValuemap) (c0 : ℤ),
      (l.foldl (fun st group =>
        (paintGroup st.1 bsize group,
          st.2 + (group.right - group.left + 1) * (group.bottom - group.top + 1)))
        (m0, c0)).2 = c0 + (l.map boxArea).sum := by
    intro l
    induction l with
    | nil => intro m0 c0; simp
    | cons g rest ih =>
      intro m0 c0
      simp only [List.foldl_cons, List.map_cons, List.sum_cons]
      rw [ih]
      unfold boxArea
      ring
  rw [haux]
  ring

/-! OR-only painting preserves the classification bit fields (C10). -/

theorem setPixel_or_preserves (fm m : IntValuemap) (o flag : ℕ)
    (hflag : flag < 256 ∧ flag &&& 0xF1 = 0)
    (hinv : (∀ i, m.pix i &&& 0xF1 = fm.pix i &&& 0xF1) ∧ ∀ i, m.pix i < 256) :
    (∀ i, (m.setPixel o (m.pix o ||| flag)).pix i &&& 0xF1 = fm.pix i &&& 0xF1) ∧
      ∀ i, (m.setPixel o (m.pix o ||| flag)).pix i < 256 := by
  constructor
  · intro i
    unfold IntValuemap.setPixel
    dsimp only
    by_cases hio : i = o
    · rw [if_pos hio, Nat.mod_eq_of_lt
        (Nat.or_lt_two_pow (n := 8) (hinv.2 o) hflag.1)]
      rw [Nat.and_distrib_right, hflag.2, Nat.or_zero, hio]
      exact hinv.1 o
    · rw [if_neg hio]
      exact hinv.1 i
  · intro i
    unfold IntValuemap.setPixel
    dsimp only
    by_cases hio : i = o
    · rw [if_pos hio]
      exact Nat.mod_lt _ (by omega)
    · rw [if_neg hio]
      exact hinv.2 i

theorem paintPixel_preserves (fm : IntValuemap) (m : IntValuemap)
    (bsize : ℤ) (g : AbsBox) (x y : ℤ)
    (hinv : (∀ i, m.pix i &&& 0xF1 = fm.pix i &&& 0xF1) ∧ ∀ i, m.pix i < 256) :
    (∀ i, (paintPixel m bsize g x y).pix i &&& 0xF1 = fm.pix i &&& 0xF1) ∧
      ∀ i, (paintPixel m bsize g x y).pix i < 256 := by
  unfold paintPixel
  dsimp only
  split
  · split
    · exact setPixel_or_preserves fm m _ groupBorderValue (by decide) hinv
    · exact setPixel_or_preserves fm m _ groupFillValue (by decide) hinv
  · exact hinv

theorem foldl_preserves {α σ : Type _} (P : σ → Prop) (f : σ → α → σ)
    (hf : ∀ s a, P s → P (f s a)) :
    ∀ (l : List α) (s : σ), P s → P (l.foldl f s) := by
  intro l
  induction l with
  | nil => intro s hs; simpa using hs
  | cons a rest ih => intro s hs; exact ih (f s a) (hf s a hs)

theorem paintGroup_preserves (fm : IntValuemap) (bsize : ℤ) (g : AbsBox)
    (m : IntValuemap)
    (hinv : (∀ i, m.pix i &&& 0xF1 = fm.pix i &&& 0xF1) ∧ ∀ i, m.pix i < 256) :
    (∀ i, (paintGroup m bsize g).pix i &&& 0xF1 = fm.pix i &&& 0xF1) ∧
      ∀ i, (paintGroup m bsize g).pix i < 256 := by
  unfold paintGroup
  exact foldl_preserves
    (fun m1 : IntValuemap =>
      (∀ i, m1.pix i &&& 0xF1 = fm.pix i &&& 0xF1) ∧ ∀ i, m1.pix i < 256)
    _
    (fun m1 y hm1 => foldl_preserves
      (fun m2 : IntValuemap =>
        (∀ i, m2.pix i &&& 0xF1 = fm.pix i &&& 0xF1) ∧ ∀ i, m2.pix i < 256)
      _ (fun m2 x hm2 => paintPixel_preserves fm m2 bsize g x y hm2) _ m1 hm1)
    _ m hinv

/-- C10: `groups` only ORs group-state bits into the flag map — for every
pixel, the similarity field (mask `0x30`), the significance field (mask
`0xC0`) and the `diffDifferent` bit (mask `0x01`) are unchanged by the
call, given a flag map of byte values. -/
theorem groups_preserves_classification_bits (fm : IntValuemap)
    (gap bsize pad : ℤ) (hbyte : ∀ i, fm.pix i < 256) : ∀ i,
    (groups fm gap bsize pad).flagsImage.pix i &&& similarityMask =
        fm.pix i &&& similarityMask ∧
      (groups fm gap bsize pad).flagsImage.pix i &&& significanceMask =
        fm.pix i &&& significanceMask ∧
      (groups fm gap bsize pad).flagsImage.pix i &&& diffDifferentValue =
        fm.pix i &&& diffDifferentValue := by
  have hmain : (∀ i, (groups fm gap bsize pad).flagsImage.pix i &&& 0xF1 =
      fm.pix i &&& 0xF1) ∧ ∀ i, (groups fm gap bsize pad).flagsImage.pix i < 256 := by
    unfold groups
    dsimp only
    refine foldl_preserves
      (fun st : IntValuemap × ℤ =>
        (∀ i, st.1.pix i &&& 0xF1 = fm.pix i &&& 0xF1) ∧ ∀ i, st.1.pix i < 256)
      _ (fun st g hst => ?_) _ (fm, 0) ⟨fun i => rfl, hbyte⟩
    exact paintGroup_preserves fm bsize g st.1 hst
  intro i
  have h1 := hmain.1 i
  have hsub : ∀ mask : ℕ, mask &&& 0xF1 = mask →
      (groups fm gap bsize pad).flagsImage.pix i &&& mask = fm.pix i &&& mask := by
    intro mask hmask
    calc (groups fm gap bsize pad).flagsImage.pix i &&& mask
        = (groups fm gap bsize pad).flagsImage.pix i &&& (0xF1 &&& mask) := by
          rw [show (0xF1 : ℕ) &&& mask = mask from by rw [Nat.and_comm]; exact hmask]
      _ = ((groups fm gap bsize pad).flagsImage.pix i &&& 0xF1) &&& mask := by
          rw [Nat.and_assoc]
      _ = (fm.pix i &&& 0xF1) &&& mask := by rw [h1]
      _ = fm.pix i &&& (0xF1 &&& mask) := by rw [Nat.and_assoc]
      _ = fm.pix i &&& mask := by
          rw [show (0xF1 : ℕ) &&& mask = mask from by rw [Nat.and_comm]; exact hmask]
  exact ⟨hsub similarityMask (by decide), hsub significanceMask (by decide),
    hsub diffDifferentValue (by decide)⟩

/-- Witness for C10: on the 5×4 scenario map (byte-valued), the bit fields
of pixel 0 survive the `groups` call. -/
theorem groups_preserves_classification_bits_witness :
    overlapFlagMap.pix 0 < 256 ∧
      (groups overlapFlagMap 0 15 1).flagsImage.pix 0 &&& similarityMask =
        overlapFlagMap.pix 0 &&& similarityMask :=
  ⟨by decide,
    (groups_preserves_classification_bits overlapFlagMap 0 15 1
      (fun i => by unfold overlapFlagMap; dsimp only; split <;> omega) 0).1⟩

/-! Permutation invariance of the similarity classifier (C8). -/

theorem absColorDistance_comm (a b : YiqPixelColor) :
    absColorDistance a b = absColorDistance b a := by
  unfold absColorDistance colorDistance
  dsimp only
  by_cases h : a.y - b.y = 0 ∧ a.i - b.i = 0 ∧ a.q - b.q = 0
  · rw [if_pos h,
      if_pos (c := b.y - a.y = 0 ∧ b.i - a.i = 0 ∧ b.q - a.q = 0)
        (by refine ⟨?_, ?_, ?_⟩ <;> linarith [h.1, h.2.1, h.2.2])]
  · rw [if_neg h,
      if_neg (c := b.y - a.y = 0 ∧ b.i - a.i = 0 ∧ b.q - a.q = 0) (by
        intro hc
        exact h ⟨by linarith [hc.1], by linarith [hc.2.1], by linarith [hc.2.2]⟩)]
    have hE : (5053 / 10000 * (a.y - b.y) * (a.y - b.y) +
          299 / 1000 * (a.i - b.i) * (a.i - b.i) +
          1957 / 10000 * (a.q - b.q) * (a.q - b.q)) /
            (13809803921568627 / 100000000000000 : ℚ) =
        (5053 / 10000 * (b.y - a.y) * (b.y - a.y) +
          299 / 1000 * (b.i - a.i) * (b.i - a.i) +
          1957 / 10000 * (b.q - a.q) * (b.q - a.q)) /
            (13809803921568627 / 100000000000000 : ℚ) := by
      ring
    by_cases hy : a.y > b.y
    · rw [if_pos hy, if_neg (c := b.y > a.y) (by linarith), abs_neg, hE]
    · by_cases hy2 : b.y > a.y
      · rw [if_neg hy, if_pos hy2, hE, abs_neg]
      · rw [if_neg hy, if_neg hy2, hE]

theorem foldl_max_perm {l₁ l₂ : List ℚ} (h : l₁.Perm l₂) :
    ∀ b, l₁.foldl max b = l₂.foldl max b := by
  induction h with
  | nil => intro b; rfl
  | cons x _ ih => intro b; simp only [List.foldl_cons]; exact ih _
  | swap x y l =>
    intro b
    simp only [List.foldl_cons]
    congr 1
    rw [max_assoc, max_assoc, max_comm y x]
  | trans _ _ ih₁ ih₂ => intro b; rw [ih₁, ih₂]

theorem foldl_max_init (l : List ℚ) : ∀ a b, l.foldl max (max a b) = max a (l.foldl max b) := by
  induction l with
  | nil => intro a b; rfl
  | cons c rest ih =>
    intro a b
    simp only [List.foldl_cons]
    rw [max_assoc, ih]

theorem le_foldl_max (l : List ℚ) : ∀ b, b ≤ l.foldl max b := by
  induction l with
  | nil => intro b; exact le_refl b
  | cons c rest ih =>
    intro b
    simp only [List.foldl_cons]
    exact le_trans (le_max_left b c) (ih _)

theorem foldl_max_cons (a : ℚ) (s : List ℚ) :
    (a :: s).foldl max 0 = max a (s.foldl max 0) := by
  simp only [List.foldl_cons]
  rw [max_comm 0 a, foldl_max_init]

theorem foldl_max_append (s t : List ℚ) :
    (s ++ t).foldl max 0 = max (s.foldl max 0) (t.foldl max 0) := by
  rw [List.foldl_append]
  have h0 : (0 : ℚ) ≤ s.foldl max 0 := le_foldl_max s 0
  calc t.foldl max (s.foldl max 0)
      = t.foldl max (max (s.foldl max 0) 0) := by rw [max_eq_left h0]
    _ = max (s.foldl max 0) (t.foldl max 0) := foldl_max_init t _ 0

theorem loopMax_eq_foldl_max (l : List ℚ) : loopMax l = l.foldl max 0 := by
  unfold loopMax
  congr 1
  funext m d
  by_cases h : m < d
  · rw [if_pos h, max_eq_right h.le]
  · rw [if_neg h, max_eq_left (by linarith)]

theorem pairDiffs_max_perm {l₁ l₂ : List YiqPixelColor} (h : l₁.Perm l₂) :
    (pairDiffs l₁).foldl max 0 = (pairDiffs l₂).foldl max 0 := by
  induction h with
  | nil => rfl
  | cons x hp ih =>
    simp only [pairDiffs, foldl_max_append]
    rw [ih, foldl_max_perm (hp.map fun q => absColorDistance x q) 0]
  | swap x y l =>
    simp only [pairDiffs, List.map_cons, List.cons_append, foldl_max_append,
      foldl_max_cons]
    rw [absColorDistance_comm y x, max_left_comm ((l.map fun q => absColorDistance y q).foldl max 0)]
  | trans _ _ ih₁ ih₂ => rw [ih₁, ih₂]

/-- C8: the similarity category computed by `similarityFlag` is invariant
under any permutation of the input image list (the maximum pairwise colour
distance does not depend on the order), whenever the images share one
width, as `diff` guarantees. -/
theorem similarityFlag_perm_invariant (images images' : List YiqFloatmap)
    (x y : ℕ) (changedMinDistance : ℚ) (w0 : ℕ)
    (hperm : images.Perm images') (hw : ∀ img ∈ images, img.width = w0) :
    similarityFlag images x y changedMinDistance =
      similarityFlag images' x y changedMinDistance := by
  cases images with
  | nil =>
    rw [← hperm.nil_eq]
  | cons a l =>
    cases images' with
    | nil => exact absurd hperm.symm.nil_eq (by simp)
    | cons a' l' =>
      have hoff : YiqFloatmap.offset a x y = YiqFloatmap.offset a' x y := by
        unfold YiqFloatmap.offset
        rw [hw a (by simp), hw a' (hperm.mem_iff.mpr (by simp))]
      unfold similarityFlag
      simp only [List.headD_cons]
      simp only [hoff]
      simp only [loopMax_eq_foldl_max]
      rw [pairDiffs_max_perm (hperm.map fun image => image.pixel (a'.offset x y))]

/-- Witness for C8: swapping two distinct 1×1 images leaves the similarity
category unchanged. -/
theorem similarityFlag_perm_invariant_witness :
    ([yiq1, yiq2].Perm [yiq2, yiq1]) ∧
      similarityFlag [yiq1, yiq2] 0 0 15 = similarityFlag [yiq2, yiq1] 0 0 15 :=
  ⟨List.Perm.swap yiq2 yiq1 [],
    similarityFlag_perm_invariant [yiq1, yiq2] [yiq2, yiq1] 0 0 15 1
      (List.Perm.swap yiq2 yiq1 [])
      (by intro img h; rcases List.mem_cons.mp h with rfl | h
          · rfl
          · rcases List.mem_singleton.mp h with rfl; rfl)⟩

/-! Memoization invariants of the render graph executor (C4). -/

theorem generate_log_spec (outputPrograms : String → Option RenderProgram)
    (outputOptions : String → Option ℕ) (rank : String → ℕ)
    (hrank : ∀ name p, outputPrograms name = some p →
      ∀ m ∈ p.inputs, rank m < rank name) :
    ∀ fuel : ℕ,
      (∀ (st : String → Option RenderMap) (name : String) v st' log,
        generateMap fuel outputPrograms outputOptions st name = .ok (v, st', log) →
          log.Nodup ∧ (∀ n ∈ log, st n = none) ∧ (∀ n, n ∉ log → st' n = st n) ∧
          (∀ n ∈ log, st' n ≠ none) ∧ (∀ n ∈ log, rank n ≤ rank name)) ∧
      (∀ (names : List String) (st : String → Option RenderMap) st' log,
        generateList fuel outputPrograms outputOptions st names = .ok (st', log) →
          log.Nodup ∧ (∀ n ∈ log, st n = none) ∧ (∀ n, n ∉ log → st' n = st n) ∧
          (∀ n ∈ log, st' n ≠ none) ∧ (∀ n ∈ log, ∃ m ∈ names, rank n ≤ rank m)) := by
  intro fuel
  induction fuel with
  | zero =>
    constructor
    · intro st name v st' log h
      simp [generateMap] at h
    · intro names st st' log h
      cases names with
      | nil =>
        simp only [generateList, Except.ok.injEq, Prod.mk.injEq] at h
        obtain ⟨rfl, rfl⟩ := h
        exact ⟨List.nodup_nil, by simp, fun n _ => rfl, by simp, by simp⟩
      | cons nm rest =>
        simp [generateList, generateMap, Except.bind, bind] at h
  | succ f ih =>
    have hmap : ∀ (st : String → Option RenderMap) (name : String) v st' log,
        generateMap (f + 1) outputPrograms outputOptions st name = .ok (v, st', log) →
          log.Nodup ∧ (∀ n ∈ log, st n = none) ∧ (∀ n, n ∉ log → st' n = st n) ∧
          (∀ n ∈ log, st' n ≠ none) ∧ (∀ n ∈ log, rank n ≤ rank name) := by
      intro st name v st' log h
      unfold generateMap at h
      split at h
      · next value hsome =>
        simp only [Except.ok.injEq, Prod.mk.injEq] at h
        obtain ⟨rfl, rfl, rfl⟩ := h
        exact ⟨List.nodup_nil, by simp, fun n _ => rfl, by simp, by simp⟩
      · next hnone =>
        split at h
        · simp at h
        · next program hprog =>
          cases hlist : generateList f outputPrograms outputOptions st program.inputs with
          | error e => rw [hlist] at h; simp [Except.bind, bind] at h
          | ok pair =>
            obtain ⟨st1, log1⟩ := pair
            rw [hlist] at h
            simp only [Except.bind, bind, Except.ok.injEq, Prod.mk.injEq] at h
            obtain ⟨rfl, rfl, rfl⟩ := h
            have hspec := ih.2 program.inputs st st1 log1 hlist
            have hnot : name ∉ log1 := by
              intro hmem
              obtain ⟨m, hm, hle⟩ := hspec.2.2.2.2 name hmem
              have := hrank name program hprog m hm
              omega
            refine ⟨?_, ?_, ?_, ?_, ?_⟩
            · simp [List.nodup_append, hspec.1, hnot]
            · intro n hn
              rcases List.mem_append.mp hn with hn | hn
              · exact hspec.2.1 n hn
              · rcases List.mem_singleton.mp hn with rfl
                exact hnone
            · intro n hn
              have hne : n ≠ name := fun hEq => hn (by simp [hEq])
              have hnin : n ∉ log1 := fun hmem => hn (by simp [hmem])
              dsimp only
              rw [if_neg hne]
              exact hspec.2.2.1 n hnin
            · intro n hn
              dsimp only
              rcases List.mem_append.mp hn with hn | hn
              · rw [if_neg (show n ≠ name from fun hEq => hnot (hEq ▸ hn))]
                exact hspec.2.2.2.1 n hn
              · rcases List.mem_singleton.mp hn with rfl
                rw [if_pos rfl]
                simp
            · intro n hn
              rcases List.mem_append.mp hn with hn | hn
              · obtain ⟨m, hm, hle⟩ := hspec.2.2.2.2 n hn
                have := hrank name program hprog m hm
                omega
              · rcases List.mem_singleton.mp hn with rfl
                exact le_refl _
    refine ⟨hmap, ?_⟩
    intro names
    induction names with
    | nil =>
      intro st st' log h
      simp only [generateList, Except.ok.injEq, Prod.mk.injEq] at h
      obtain ⟨rfl, rfl⟩ := h
      exact ⟨List.nodup_nil, by simp, fun n _ => rfl, by simp, by simp⟩
    | cons nm rest ihn =>
      intro st st' log h
      unfold generateList at h
      cases h1 : generateMap (f + 1) outputPrograms outputOptions st nm with
      | error e => rw [h1] at h; simp [Except.bind, bind] at h
      | ok trip =>
        obtain ⟨v1, st1, log1⟩ := trip
        rw [h1] at h
        simp only [Except.bind, bind] at h
        cases h2 : generateList (f + 1) outputPrograms outputOptions st1 rest with
        | error e => rw [h2] at h; simp at h
        | ok pair2 =>
          obtain ⟨st2, log2⟩ := pair2
          rw [h2] at h
          simp only [Except.ok.injEq, Prod.mk.injEq] at h
          obtain ⟨rfl, rfl⟩ := h
          have s1 := hmap st nm v1 st1 log1 h1
          have s2 := ihn st1 st2 log2 h2
          have hdisj : ∀ n ∈ log1, n ∉ log2 := by
            intro n hn1 hn2
            exact s1.2.2.2.1 n hn1 (s2.2.1 n hn2)
          refine ⟨?_, ?_, ?_, ?_, ?_⟩
          · rw [List.nodup_append]
            exact ⟨s1.1, s2.1, fun n hn1 => hdisj n hn1⟩
          · intro n hn
            rcases List.mem_append.mp hn with hn | hn
            · exact s1.2.1 n hn
            · have hnin : n ∉ log1 := fun hmem =>
                s1.2.2.2.1 n hmem (s2.2.1 n hn)
              rw [← s1.2.2.1 n hnin]
              exact s2.2.1 n hn
          · intro n hn
            have h1n : n ∉ log1 := fun hmem => hn (by simp [hmem])
            have h2n : n ∉ log2 := fun hmem => hn (by simp [hmem])
            rw [s2.2.2.1 n h2n, s1.2.2.1 n h1n]
          · intro n hn
            rcases List.mem_append.mp hn with hn | hn
            · by_cases h2n : n ∈ log2
              · exact s2.2.2.2.1 n h2n
              · rw [s2.2.2.1 n h2n]
                exact s1.2.2.2.1 n hn
            · exact s2.2.2.2.1 n hn
          · intro n hn
            rcases List.mem_append.mp hn with hn | hn
            · exact ⟨nm, by simp, s1.2.2.2.2 n hn⟩
            · obtain ⟨m, hm, hle⟩ := s2.2.2.2.2 n hn
              exact ⟨m, by simp [hm], hle⟩

theorem renderLoop_log_spec (outputPrograms : String → Option RenderProgram)
    (outputOptions : String → Option ℕ) (rank : String → ℕ)
    (hrank : ∀ name p, outputPrograms name = some p →
      ∀ m ∈ p.inputs, rank m < rank name) (fuel : ℕ) :
    ∀ (output : List String) (st outImgs : String → Option RenderMap)
      (outImgs' st' : String → Option RenderMap) (log : List String),
      renderLoop fuel outputPrograms outputOptions st outImgs output =
          .ok (outImgs', st', log) →
        log.Nodup ∧ (∀ n ∈ log, st n = none) ∧ (∀ n, n ∉ log → st' n = st n) ∧
        (∀ n ∈ log, st' n ≠ none) := by
  have hmap := (generate_log_spec outputPrograms outputOptions rank hrank fuel).1
  intro output
  induction output with
  | nil =>
    intro st outImgs outImgs' st' log h
    simp only [renderLoop, Except.ok.injEq, Prod.mk.injEq] at h
    obtain ⟨rfl, rfl, rfl⟩ := h
    exact ⟨List.nodup_nil, by simp, fun n _ => rfl, by simp⟩
  | cons nm rest ihn =>
    intro st outImgs outImgs' st' log h
    unfold renderLoop at h
    cases h1 : generateMap fuel outputPrograms outputOptions st nm with
    | error e => rw [h1] at h; simp [Except.bind, bind] at h
    | ok trip =>
      obtain ⟨v1, st1, log1⟩ := trip
      rw [h1] at h
      simp only [Except.bind, bind] at h
      cases h2 : renderLoop fuel outputPrograms outputOptions st1
          (fun n => if n = nm then some v1 else outImgs n) rest with
      | error e => rw [h2] at h; simp at h
      | ok trip2 =>
        obtain ⟨outImgs2, st2, log2⟩ := trip2
        rw [h2] at h
        simp only [Except.ok.injEq, Prod.mk.injEq] at h
        obtain ⟨rfl, rfl, rfl⟩ := h
        have s1 := hmap st nm v1 st1 log1 h1
        have s2 := ihn st1 _ outImgs2 st2 log2 h2
        refine ⟨?_, ?_, ?_, ?_⟩
        · rw [List.nodup_append]
          exact ⟨s1.1, s2.1, fun n hn1 hn2 => s1.2.2.2.1 n hn1 (s2.2.1 n hn2)⟩
        · intro n hn
          rcases List.mem_append.mp hn with hn | hn
          · exact s1.2.1 n hn
          · have hnin : n ∉ log1 := fun hmem => s1.2.2.2.1 n hmem (s2.2.1 n hn)
            rw [← s1.2.2.1 n hnin]
            exact s2.2.1 n hn
        · intro n hn
          have h1n : n ∉ log1 := fun hmem => hn (by simp [hmem])
          have h2n : n ∉ log2 := fun hmem => hn (by simp [hmem])
          rw [s2.2.2.1 n h2n, s1.2.2.1 n h1n]
        · intro n hn
          rcases List.mem_append.mp hn with hn | hn
          · by_cases h2n : n ∈ log2
            · exact s2.2.2.2 n h2n
            · rw [s2.2.2.1 n h2n]
              exact s1.2.2.2.1 n hn
          · exact s2.2.2.2 n hn

/-- C4: for every completed render invocation over an acyclic program
catalog (witnessed by a rank function decreasing along dependencies, the
DAG assumption the specification makes), each named program's generation
function is invoked at most once — the instrumented invocation log contains
no name twice — regardless of how often a name appears in the requested
output list or how many other programs depend on it. -/
theorem render_program_runs_at_most_once (flagsImage : IntValuemap)
    (sourceImages : List RgbBitmap) (output : List String)
    (outputOptions : String → Option ℕ)
    (outputPrograms : String → Option RenderProgram) (fuel : ℕ)
    (rank : String → ℕ)
    (hrank : ∀ name p, outputPrograms name = some p →
      ∀ m ∈ p.inputs, rank m < rank name)
    (outputImages allMaps : String → Option RenderMap) (log : List String)
    (hrun : render flagsImage sourceImages output outputOptions outputPrograms fuel =
      .ok (outputImages, allMaps, log)) :
    ∀ name, log.count name ≤ 1 := by
  unfold render at hrun
  have hspec := renderLoop_log_spec outputPrograms outputOptions rank hrank fuel
    output _ _ _ _ _ hrun
  exact fun name => List.nodup_iff_count_le_one.mp hspec.1 name

theorem render_progs0_log :
    (render flagMap1 [] ["A", "A"] (fun _ => none) progs0 3).map
      (fun r => r.2.2) = .ok ["A"] := by
  simp [render, renderLoop, generateMap, generateList, progs0, progA,
    mergeOptions, Except.bind, bind, Except.map]

/-- Witness for C4: requesting `"A"` twice invokes its function once — the
invocation log of the concrete run is `["A"]`. -/
theorem render_program_runs_at_most_once_witness :
    (∀ name p, progs0 name = some p → ∀ m ∈ p.inputs, rank0 m < rank0 name) ∧
      (render flagMap1 [] ["A", "A"] (fun _ => none) progs0 3).map
        (fun r => r.2.2) = .ok ["A"] ∧
      List.count "A" ["A"] ≤ 1 := by
  have hrank : ∀ name p, progs0 name = some p →
      ∀ m ∈ p.inputs, rank0 m < rank0 name := by
    intro name p hp m hm
    unfold progs0 at hp
    split at hp
    · cases hp
      simp [progA] at hm
    · cases hp
  refine ⟨hrank, render_progs0_log, ?_⟩
  cases hr : render flagMap1 [] ["A", "A"] (fun _ => none) progs0 3 with
  | error e =>
    have := render_progs0_log
    rw [hr] at this
    simp [Except.map] at this
  | ok r =>
    obtain ⟨outs, st, log⟩ := r
    have hlog : log = ["A"] := by
      have := render_progs0_log
      rw [hr] at this
      simpa [Except.map] using this
    have := render_program_runs_at_most_once flagMap1 [] ["A", "A"]
      (fun _ => none) progs0 3 rank0 hrank outs st log hr "A"
    rw [hlog] at this
    exact this

end Diffmap
